import Mathlib

/-!
Verification of the JournalEntries concept (AI-augmented weekly synthesis).

This file is a shallow embedding of `journal-entries.ts`: the data model
(JournalEntry, WeeklySummary, the in-memory keyed maps), the weekly synthesis
pipeline (aggregate computation, prompt construction, response parsing, the
V1/V2/V3 validator chain, and the orchestrating `summarizeWeek`), and the
entry CRUD operations, together with theorems settling the specification
claims about them.

Modelling conventions:
* JS `Date` values used by the program are calendar dates at UTC midnight;
  they are embedded as civil (year, month, day) triples (`JDate`).  Epoch
  ordering of such dates coincides with lexicographic civil ordering, which
  for dates with in-range fields equals ordering of `y*10000 + m*100 + d`.
  `toISOString().split('T')[0]` is the zero-padded `YYYY-MM-DD` rendering;
  the model covers four-digit years (y ≤ 9999), the range in which
  `toISOString` uses the plain `YYYY-MM-DD` date form.
* JS strings are embedded as Lean `String`s; the character-class predicates
  (`\s`, `\w`, `\d`) are modelled over their ASCII behaviour, which is exact
  for ASCII text (JS `\w` and `\d` are ASCII-only by definition).
* `JSON.parse` is embedded as `jsonParse`, a fuel-indexed recursive-descent
  parser of the JSON grammar; objects keep their fields in textual order and
  property lookup takes the last occurrence of a duplicated key, as in JS.
* `console.log` calls are pure output and are not modelled.  The external
  LLM call is an oracle parameter `llm : String → Option String` (`none`
  models a transport failure of the awaited call); `summarizeWeek` also
  returns the number of times the oracle was invoked, so that "the external
  call is never made" is expressible.  `new Date()` timestamps are modelled
  by a caller-supplied clock value.
-/

/-! ### Character classes and basic string helpers -/

/-- The `{` character (written via its code point). -/
def openBrace : Char := Char.ofNat 123

/-- The `\x7d` character (written via its code point). -/
def closeBrace : Char := Char.ofNat 125

/-- JS regex `\s` / `String.prototype.trim` whitespace, ASCII part. -/
def jsSpace (c : Char) : Bool :=
  c = ' ' || c = '\t' || c = '\n' || c = '\r' || c = '\x0b' || c = '\x0c'

/-- JS regex `\w` word character: `[A-Za-z0-9_]`. -/
def isWordChar (c : Char) : Bool :=
  ('A' ≤ c && c ≤ 'Z') || ('a' ≤ c && c ≤ 'z') || ('0' ≤ c && c ≤ '9') || c = '_'

/-- JS regex `\d` digit character: `[0-9]`. -/
def isDigitChar (c : Char) : Bool := '0' ≤ c && c ≤ '9'

/-- `String.prototype.trim()` (ASCII whitespace). -/
def jsTrim (s : String) : String :=
  String.mk (((s.data.dropWhile jsSpace).reverse.dropWhile jsSpace).reverse)

/-- `String.prototype.toLowerCase()` restricted to ASCII case mapping. -/
def jsToLower (s : String) : String := String.mk (s.data.map Char.toLower)

/-- Number of maximal runs of non-whitespace characters, with a flag telling
whether a run is already open. -/
def countTokens : List Char → Bool → Nat
  | [], _ => 0
  | c :: rest, inTok =>
    if jsSpace c then countTokens rest false
    else (if inTok then 0 else 1) + countTokens rest true

/-- Token count of `s.split(/\s+/)` for a string with no leading whitespace:
the number of maximal runs of non-whitespace characters (and 1 for the empty
string, since `"".split(/\s+/)` is `[""]`). -/
def splitWsCount (s : String) : Nat :=
  if s.data.isEmpty then 1 else countTokens s.data false

/-- Does `pat` occur in `cs` starting at index `i`? -/
def substringAt (cs pat : List Char) (i : Nat) : Bool :=
  (cs.drop i).take pat.length = pat

/-- Does `pat` occur anywhere in `cs`? (JS `RegExp.test` of a literal.) -/
def containsSub (cs pat : List Char) : Bool :=
  (List.range (cs.length + 1)).any fun i => substringAt cs pat i

/-- Is there a word boundary (`\b`) just before index `i`, for a pattern whose
first character is a word character? -/
def boundaryBefore (cs : List Char) (i : Nat) : Bool :=
  i = 0 || !(match cs[i - 1]? with | some c => isWordChar c | none => false)

/-- Is there a word boundary (`\b`) just after index `j` (exclusive), for a
pattern whose last character is a word character? -/
def boundaryAfter (cs : List Char) (j : Nat) : Bool :=
  match cs[j]? with | some c => !isWordChar c | none => true

/-- JS `new RegExp("\\b" + w + "\\b").test(cs)` for a purely alphabetic word
`w`: `w` occurs at some position with word boundaries on both sides. -/
def wholeWordMatch (cs pat : List Char) : Bool :=
  (List.range (cs.length + 1)).any fun i =>
    boundaryBefore cs i && substringAt cs pat i && boundaryAfter cs (i + pat.length)

/-! ### Civil dates (JS `Date` at UTC midnight) -/

/-- A calendar date; embeds a JS `Date` holding a UTC-midnight instant. -/
structure JDate where
  y : Nat
  m : Nat
  d : Nat
  deriving DecidableEq

/-- Gregorian leap year. -/
def isLeap (y : Nat) : Bool := (y % 4 = 0 && y % 100 ≠ 0) || y % 400 = 0

/-- Length of month `m` of year `y` (months 1-12; arbitrary 31 off-range). -/
def daysInMonth (y m : Nat) : Nat :=
  if m = 2 then (if isLeap y then 29 else 28)
  else if m = 4 || m = 6 || m = 9 || m = 11 then 30
  else 31

/-- The following civil day (`setDate(getDate() + 1)` at UTC). -/
def nextDay (dt : JDate) : JDate :=
  if dt.d < daysInMonth dt.y dt.m then ⟨dt.y, dt.m, dt.d + 1⟩
  else if dt.m < 12 then ⟨dt.y, dt.m + 1, 1⟩
  else ⟨dt.y + 1, 1, 1⟩

/-- `setDate(getDate() + n)` at UTC: advance `n` civil days. -/
def addDays (dt : JDate) (n : Nat) : JDate := nextDay^[n] dt

/-- Numeric key whose order is epoch order for dates with in-range fields. -/
def JDate.toKey (dt : JDate) : Nat := dt.y * 10000 + dt.m * 100 + dt.d

/-- JS `Date` comparison `a <= b` (epoch order, as civil order). -/
def jleb (a b : JDate) : Bool := decide (a.toKey ≤ b.toKey)

/-- JS `Date` comparison `a < b` (epoch order, as civil order). -/
def jltb (a b : JDate) : Bool := decide (a.toKey < b.toKey)

/-- The decimal digit character for `n % 10`. -/
def digitChar (n : Nat) : Char := Char.ofNat (48 + n % 10)

/-- `toISOString().split('T')[0]`: the `YYYY-MM-DD` rendering (4-digit year
range). -/
def toISODate (dt : JDate) : String :=
  String.mk
    [digitChar (dt.y / 1000), digitChar (dt.y / 100), digitChar (dt.y / 10),
     digitChar dt.y, '-',
     digitChar (dt.m / 10), digitChar dt.m, '-',
     digitChar (dt.d / 10), digitChar dt.d]

/-- Numeric value of a decimal digit character. -/
def digitVal (c : Char) : Nat := c.toNat - 48

/-- `new Date(s)` for a 10-character `YYYY-MM-DD` candidate: `some` of the
civil date when the string denotes a real calendar date, `none` (an Invalid
Date, whose comparisons are all false) otherwise. -/
def parseISODate (s : String) : Option JDate :=
  match s.data with
  | [y1, y2, y3, y4, h1, m1, m2, h2, d1, d2] =>
    if h1 = '-' && h2 = '-' &&
        isDigitChar y1 && isDigitChar y2 && isDigitChar y3 && isDigitChar y4 &&
        isDigitChar m1 && isDigitChar m2 && isDigitChar d1 && isDigitChar d2 then
      let y := 1000 * digitVal y1 + 100 * digitVal y2 + 10 * digitVal y3 + digitVal y4
      let m := 10 * digitVal m1 + digitVal m2
      let d := 10 * digitVal d1 + digitVal d2
      if 1 ≤ m && m ≤ 12 && 1 ≤ d && d ≤ daysInMonth y m then some ⟨y, m, d⟩
      else none
    else none
  | _ => none

/-- In-range month/day fields (what a civil date read out of a real JS `Date`
always satisfies). -/
def JDate.ValidMD (dt : JDate) : Prop :=
  1 ≤ dt.m ∧ dt.m ≤ 12 ∧ 1 ≤ dt.d ∧ dt.d ≤ daysInMonth dt.y dt.m

instance (dt : JDate) : Decidable dt.ValidMD := by
  unfold JDate.ValidMD; infer_instance

/-! ### JSON (model of `JSON.parse`) -/

/-- JSON values.  Numbers keep their raw lexeme (no claim inspects a numeric
value beyond truthiness); objects keep fields in textual order. -/
inductive Json where
  | null
  | bool (b : Bool)
  | num (raw : String)
  | str (s : String)
  | arr (elems : List Json)
  | obj (fields : List (String × Json))

/-- JSON insignificant whitespace (space, tab, line feed, carriage return). -/
def jsonWsChar (c : Char) : Bool :=
  c = ' ' || c = '\t' || c = '\n' || c = '\r'

/-- Skip JSON whitespace. -/
def skipJsonWs (cs : List Char) : List Char := cs.dropWhile jsonWsChar

/-- Value of a hexadecimal digit. -/
def hexVal (c : Char) : Option Nat :=
  if '0' ≤ c && c ≤ '9' then some (c.toNat - 48)
  else if 'a' ≤ c && c ≤ 'f' then some (c.toNat - 87)
  else if 'A' ≤ c && c ≤ 'F' then some (c.toNat - 55)
  else none

/-- Parse a JSON string body (after the opening quote): decoded characters
plus the remainder after the closing quote.  Raw control characters are
invalid; escapes are the JSON ones. -/
def parseStringBody : Nat → List Char → Option (List Char × List Char)
  | 0, _ => none
  | _, [] => none
  | fuel + 1, c :: rest =>
    if c = '"' then some ([], rest)
    else if c = '\\' then
      match rest with
      | [] => none
      | e :: rest2 =>
        let dec? : Option (Char × List Char) :=
          if e = '"' then some ('"', rest2)
          else if e = '\\' then some ('\\', rest2)
          else if e = '/' then some ('/', rest2)
          else if e = 'b' then some ('\x08', rest2)
          else if e = 'f' then some ('\x0c', rest2)
          else if e = 'n' then some ('\n', rest2)
          else if e = 'r' then some ('\r', rest2)
          else if e = 't' then some ('\t', rest2)
          else if e = 'u' then
            match rest2 with
            | h1 :: h2 :: h3 :: h4 :: rest3 =>
              match hexVal h1, hexVal h2, hexVal h3, hexVal h4 with
              | some a, some b, some c2, some d =>
                some (Char.ofNat (((a * 16 + b) * 16 + c2) * 16 + d), rest3)
              | _, _, _, _ => none
            | _ => none
          else none
        match dec? with
        | some (ch, restN) => (parseStringBody fuel restN).map fun p => (ch :: p.1, p.2)
        | none => none
    else if c.toNat < 32 then none
    else (parseStringBody fuel rest).map fun p => (c :: p.1, p.2)

/-- Parse the fraction/exponent tail of a JSON number, given the characters
of the sign and integer part already read. -/
def parseNumberTail (acc : List Char) (cs : List Char) : Option (List Char × List Char) :=
  let (acc1, cs1) :=
    match cs with
    | '.' :: rest =>
      let ds := rest.takeWhile isDigitChar
      if ds.isEmpty then (none, cs)
      else (some (acc ++ '.' :: ds), rest.drop ds.length)
    | _ => (some acc, cs)
  match acc1 with
  | none => none
  | some acc2 =>
    match cs1 with
    | c :: rest =>
      if c = 'e' || c = 'E' then
        let (sgn, rest2) :=
          match rest with
          | s :: r => if s = '+' || s = '-' then ([s], r) else ([], rest)
          | [] => ([], rest)
        let ds := rest2.takeWhile isDigitChar
        if ds.isEmpty then none
        else some (acc2 ++ c :: (sgn ++ ds), rest2.drop ds.length)
      else some (acc2, cs1)
    | [] => some (acc2, cs1)

/-- Parse a JSON number lexeme (grammar `-? (0 | [1-9][0-9]*) frac? exp?`). -/
def parseNumber (cs : List Char) : Option (List Char × List Char) :=
  let (sgn, cs1) :=
    match cs with
    | '-' :: rest => (['-'], rest)
    | _ => ([], cs)
  match cs1 with
  | '0' :: rest => parseNumberTail (sgn ++ ['0']) rest
  | c :: rest =>
    if isDigitChar c then
      let ds := rest.takeWhile isDigitChar
      parseNumberTail (sgn ++ c :: ds) (rest.drop ds.length)
    else none
  | [] => none

mutual

/-- Parse one JSON value (leading whitespace allowed), returning it and the
unconsumed remainder.  Fuel-indexed; `jsonParse` supplies ample fuel. -/
def parseValue : Nat → List Char → Option (Json × List Char)
  | 0, _ => none
  | fuel + 1, cs =>
    match skipJsonWs cs with
    | [] => none
    | c :: rest =>
      if c = '"' then
        (parseStringBody (rest.length + 1) rest).map fun p => (Json.str (String.mk p.1), p.2)
      else if c = openBrace then
        match skipJsonWs rest with
        | c2 :: rest2 =>
          if c2 = closeBrace then some (Json.obj [], rest2)
          else parseObjFields fuel (c2 :: rest2) []
        | [] => none
      else if c = '[' then
        match skipJsonWs rest with
        | c2 :: rest2 =>
          if c2 = ']' then some (Json.arr [], rest2)
          else parseArrElems fuel (c2 :: rest2) []
        | [] => none
      else if c = 't' then
        if rest.take 3 = ['r', 'u', 'e'] then some (Json.bool true, rest.drop 3) else none
      else if c = 'f' then
        if rest.take 4 = ['a', 'l', 's', 'e'] then some (Json.bool false, rest.drop 4) else none
      else if c = 'n' then
        if rest.take 3 = ['u', 'l', 'l'] then some (Json.null, rest.drop 3) else none
      else
        (parseNumber (c :: rest)).map fun p => (Json.num (String.mk p.1), p.2)

/-- Parse the members of a JSON object (positioned at a member's key). -/
def parseObjFields : Nat → List Char → List (String × Json) → Option (Json × List Char)
  | 0, _, _ => none
  | fuel + 1, cs, acc =>
    match skipJsonWs cs with
    | c :: rest =>
      if c = '"' then
        match parseStringBody (rest.length + 1) rest with
        | some (key, rest2) =>
          match skipJsonWs rest2 with
          | c2 :: rest3 =>
            if c2 = ':' then
              match parseValue fuel rest3 with
              | some (v, rest4) =>
                let acc2 := acc ++ [(String.mk key, v)]
                match skipJsonWs rest4 with
                | c3 :: rest5 =>
                  if c3 = ',' then parseObjFields fuel rest5 acc2
                  else if c3 = closeBrace then some (Json.obj acc2, rest5)
                  else none
                | [] => none
              | none => none
            else none
          | [] => none
        | none => none
      else none
    | [] => none

/-- Parse the elements of a JSON array (positioned at an element). -/
def parseArrElems : Nat → List Char → List Json → Option (Json × List Char)
  | 0, _, _ => none
  | fuel + 1, cs, acc =>
    match parseValue fuel cs with
    | some (v, rest) =>
      let acc2 := acc ++ [v]
      match skipJsonWs rest with
      | c :: rest2 =>
        if c = ',' then parseArrElems fuel rest2 acc2
        else if c = ']' then some (Json.arr acc2, rest2)
        else none
      | [] => none
    | none => none

end

/-- `JSON.parse`: parse a complete JSON text (trailing whitespace only). -/
def jsonParse (s : String) : Option Json :=
  match parseValue (2 * s.data.length + 2) s.data with
  | some (j, rest) => if (skipJsonWs rest).isEmpty then some j else none
  | none => none

/-- JS property read `o[key]` on a parsed JSON value: objects look up the last
occurrence of the key (later duplicate keys overwrite earlier ones in
`JSON.parse`); anything else yields `undefined` (`none`). -/
def jGet (j : Json) (key : String) : Option Json :=
  match j with
  | .obj fields => fields.foldl (fun acc kv => if kv.1 = key then some kv.2 else acc) none
  | _ => none

/-- Is a JSON number lexeme a representation of zero (all mantissa digits are
`0`)?  Extreme exponents that underflow to zero in binary floating point are
not modelled; in `parseLLMResponse` number truthiness only selects between two
`ParseError` messages, never between success and failure. -/
def jsNumIsZero (raw : String) : Bool :=
  (raw.data.takeWhile fun c => c ≠ 'e' && c ≠ 'E').all fun c => !(isDigitChar c) || c = '0'

/-- JS truthiness of a property-read result (`undefined`, `null`, `false`,
`0`, and the empty string are falsy). -/
def jsTruthy : Option Json → Bool
  | none => false
  | some .null => false
  | some (.bool b) => b
  | some (.num raw) => !jsNumIsZero raw
  | some (.str s) => !s.isEmpty
  | some (.arr _) => true
  | some (.obj _) => true

/-- JS `typeof v === 'string'` on a property-read result. -/
def jsIsString : Option Json → Bool
  | none => false
  | some .null => false
  | some (.bool _) => false
  | some (.num _) => false
  | some (.str _) => true
  | some (.arr _) => false
  | some (.obj _) => false

/-! ### Response parsing (`parseLLMResponse`) -/

/-- `responseText.match(/\x7b[\s\S]*\x7d/)`: the greedy match runs from the
first `\x7b` to the last `\x7d` of the text, provided that `\x7d` comes after
that `\x7b`; otherwise there is no match. -/
def extractBraces (s : String) : Option String :=
  let fromBrace := s.data.dropWhile fun c => c ≠ openBrace
  let upto := (fromBrace.reverse.dropWhile fun c => c ≠ closeBrace).reverse
  if 2 ≤ upto.length then some (String.mk upto) else none

/-- Failure cases of `parseLLMResponse` (all are `ParseError`s in the spec's
taxonomy; constructors record which `throw` fired). -/
inductive PErr where
  /-- `No JSON found in LLM response` -/
  | noJson
  /-- `JSON.parse` threw (invalid JSON) -/
  | invalidJson
  /-- `Invalid LLM response format: missing summary or focus` -/
  | missingField
  /-- `Invalid LLM response format: summary and focus must be strings` -/
  | notString
  deriving DecidableEq

/-- The parser's return value: a fresh two-field record, so its JS key set is
exactly `summary`, `focus` regardless of the parsed object's keys. -/
structure LLMResult where
  summary : String
  focus : String
  deriving DecidableEq

/-- `parseLLMResponse`: extract the brace-delimited substring, `JSON.parse`
it, require truthy `summary`/`focus` properties of string type, and return
exactly those two fields (any additional parsed keys are dropped here). -/
def parseLLMResponse (responseText : String) : Except PErr LLMResult :=
  match extractBraces responseText with
  | none => .error .noJson
  | some jsonStr =>
    match jsonParse jsonStr with
    | none => .error .invalidJson
    | some response =>
      let sv := jGet response "summary"
      let fv := jGet response "focus"
      if !jsTruthy sv || !jsTruthy fv then .error .missingField
      else if !jsIsString sv || !jsIsString fv then .error .notString
      else
        match sv, fv with
        | some (.str s), some (.str f) => .ok ⟨s, f⟩
        | _, _ => .error .notString

/-! ### The validator chain (V1, V2, V3) -/

/-- Validator-chain rejections (ShapeError / WindowError / ActionabilityError
in the spec's taxonomy; constructors record the violated rule). -/
inductive VErr where
  /-- V1: extra keys beyond `summary`/`focus` -/
  | v1ExtraKeys
  /-- V1: `summary` empty after trimming -/
  | v1EmptySummary
  /-- V1: `focus` empty after trimming -/
  | v1EmptyFocus
  /-- V1: `summary` over 120 words -/
  | v1SummaryTooLong (words : Nat)
  /-- V1: `focus` over 60 words -/
  | v1FocusTooLong (words : Nat)
  /-- V2: output contains an HTTP/HTTPS URL -/
  | v2Url
  /-- V2: output contains a date outside the week window -/
  | v2OutOfWindowDate (tok : String)
  /-- V3: no imperative verb in `focus` -/
  | v3NoImperative
  /-- V3: no timebox/frequency token in `focus` -/
  | v3NoTimebox
  deriving DecidableEq

/-- `validateV1_ShapeAndLimits`: key set, non-emptiness after trimming, and
word limits (summary ≤ 120, focus ≤ 60, whitespace-delimited). -/
def validateV1_ShapeAndLimits (result : LLMResult) : Except VErr Unit :=
  -- `Object.keys(result)` of the parser's fresh two-field literal: its key
  -- set is always exactly `summary`, `focus`, so no key can be extra.
  let keys : List String := ["summary", "focus"]
  let allowedKeys : List String := ["summary", "focus"]
  let extraKeys := keys.filter fun k => !allowedKeys.contains k
  if extraKeys.length > 0 then .error .v1ExtraKeys
  else if result.summary.isEmpty || (jsTrim result.summary).length = 0 then
    .error .v1EmptySummary
  else if result.focus.isEmpty || (jsTrim result.focus).length = 0 then
    .error .v1EmptyFocus
  else
    let summaryWords := splitWsCount (jsTrim result.summary)
    let focusWords := splitWsCount (jsTrim result.focus)
    if summaryWords > 120 then .error (.v1SummaryTooLong summaryWords)
    else if focusWords > 60 then .error (.v1FocusTooLong focusWords)
    else .ok ()

/-- Is the character at index `i` a digit? -/
def digitAtB (cs : List Char) (i : Nat) : Bool :=
  match cs[i]? with
  | some c => isDigitChar c
  | none => false

/-- One step of the global scan of `/\b\d{4}-\d{2}-\d{2}\b/g`: does a match
start at index `i`?  (The pattern, position by position:
digit digit digit digit `-` digit digit `-` digit digit, with word
boundaries on both sides.) -/
def dateMatchAt (cs : List Char) (i : Nat) : Bool :=
  boundaryBefore cs i &&
  digitAtB cs i && digitAtB cs (i + 1) && digitAtB cs (i + 2) && digitAtB cs (i + 3) &&
  (cs[i + 4]? = some '-') &&
  digitAtB cs (i + 5) && digitAtB cs (i + 6) &&
  (cs[i + 7]? = some '-') &&
  digitAtB cs (i + 8) && digitAtB cs (i + 9) &&
  boundaryAfter cs (i + 10)

/-- The left-to-right global scan loop: find the next match at or after `i`,
emit its 10-character lexeme, and resume just past it. -/
def findDateTokensFrom : Nat → List Char → Nat → List String
  | 0, _, _ => []
  | fuel + 1, cs, i =>
    if cs.length ≤ i then []
    else if dateMatchAt cs i then
      String.mk ((cs.drop i).take 10) :: findDateTokensFrom fuel cs (i + 10)
    else findDateTokensFrom fuel cs (i + 1)

/-- `combinedText.match(/\b\d{4}-\d{2}-\d{2}\b/g)`: all date-shaped tokens,
left to right. -/
def findDateTokens (cs : List Char) : List String :=
  findDateTokensFrom (cs.length + 1) cs 0

/-- `validateV2_WindowAndLinks`: no `http://`/`https://` substring (case
insensitive), and every date-shaped token that denotes a real calendar date
must lie in `[weekStart, weekEnd]` (an invalid date compares false on both
sides, as NaN comparisons do, and is not flagged). -/
def validateV2_WindowAndLinks (result : LLMResult) (weekStart : JDate) : Except VErr Unit :=
  let weekEnd := addDays weekStart 6
  let combinedText := result.summary ++ " " ++ result.focus
  let lower := (jsToLower combinedText).data
  if containsSub lower "http://".data || containsSub lower "https://".data then
    .error .v2Url
  else
    match (findDateTokens combinedText.data).find? (fun tok =>
        match parseISODate tok with
        | some dt => jltb dt weekStart || jltb weekEnd dt
        | none => false) with
    | some tok => .error (.v2OutOfWindowDate tok)
    | none => .ok ()

/-- The fixed imperative-verb vocabulary. -/
def imperativeVerbs : List String :=
  ["schedule", "plan", "block", "review", "write", "read", "practice",
   "prepare", "email", "call", "draft", "set"]

/-- The unit words of the numeric-duration alternative
`(min|minutes?|hours?)` of the timebox pattern. -/
def unitWords : List String := ["min", "minute", "minutes", "hour", "hours"]

/-- Does a duration unit word start at index `p` with a trailing `\b`? -/
def unitMatchAt (cs : List Char) (p : Nat) : Bool :=
  unitWords.any fun u => substringAt cs u.data p && boundaryAfter cs (p + u.data.length)

/-- `/\b\d+\s?(min|minutes?|hours?)\b/` (on lowercased text): some position
with a word boundary starts one or more digits followed, after at most one
whitespace character, by a unit word at a word boundary. -/
def durationMatch (cs : List Char) : Bool :=
  (List.range cs.length).any fun i =>
    boundaryBefore cs i &&
    (List.range (cs.length + 1)).any fun k =>
      1 ≤ k && ((cs.drop i).take k).length = k && ((cs.drop i).take k).all isDigitChar &&
      (unitMatchAt cs (i + k) ||
        ((match cs[i + k]? with | some c => jsSpace c | none => false) &&
          unitMatchAt cs (i + k + 1)))

/-- The timebox/frequency pattern of V3 (tested case-insensitively, so on the
lowercased focus text): a numeric duration or one of the frequency words. -/
def timeboxMatch (cs : List Char) : Bool :=
  durationMatch cs || wholeWordMatch cs "daily".data || wholeWordMatch cs "weekly".data ||
    wholeWordMatch cs "morning".data || wholeWordMatch cs "evening".data

/-- `validateV3_Actionability`: `focus` must contain a whole-word imperative
verb (case-insensitive) and a timebox/frequency token. -/
def validateV3_Actionability (result : LLMResult) : Except VErr Unit :=
  let focusLower := jsToLower result.focus
  let hasImperative := imperativeVerbs.any fun verb => wholeWordMatch focusLower.data verb.data
  if !hasImperative then .error .v3NoImperative
  else if !timeboxMatch (jsToLower result.focus).data then .error .v3NoTimebox
  else .ok ()

/-- `validateLLMOutput`: the fail-fast V1 → V2 → V3 chain. -/
def validateLLMOutput (result : LLMResult) (weekStart : JDate) : Except VErr Unit := do
  validateV1_ShapeAndLimits result
  validateV2_WindowAndLinks result weekStart
  validateV3_Actionability result

/-! ### Data model and state -/

deriving instance DecidableEq for Except

/-- A daily journal entry. -/
structure JournalEntry where
  id : String
  userId : String
  date : JDate
  gratitude : String
  didToday : String
  proudOf : String
  tomorrowPlan : String
  rating : Int
  deriving DecidableEq

/-- A persisted weekly summary (`generatedAt` is the caller-visible clock
value standing for `new Date()`). -/
structure WeeklySummary where
  userId : String
  weekStart : JDate
  weekEnd : JDate
  entryCount : Nat
  avgRating : ℚ
  missingDays : List String
  summary : String
  focus : String
  sourceEntryIds : List String
  generatedAt : Nat
  deriving DecidableEq

/-- Prompt variant selector. -/
inductive PromptVariant where
  | base
  | compressed
  | strict
  | actionable
  deriving DecidableEq

/-- The `JournalEntries` instance state: two insertion-ordered keyed maps
(JS `Map`s) and the id counter. -/
structure JState where
  entries : List (String × JournalEntry)
  weeklySummaries : List (String × WeeklySummary)
  nextId : Nat
  deriving DecidableEq

/-- JS `Map.prototype.get`. -/
def mapGet {β : Type} (m : List (String × β)) (k : String) : Option β :=
  (m.find? fun p => p.1 == k).map Prod.snd

/-- JS `Map.prototype.set`: overwrite in place when the key is present
(keeping its insertion position), append otherwise. -/
def mapSet {β : Type} (m : List (String × β)) (k : String) (v : β) : List (String × β) :=
  if (m.find? fun p => p.1 == k).isSome then
    m.map fun p => if p.1 == k then (k, v) else p
  else m ++ [(k, v)]

/-- `getDateKey`: the composite entry key `userId:YYYY-MM-DD`. -/
def getDateKey (userId : String) (date : JDate) : String :=
  userId ++ ":" ++ toISODate date

/-- `getWeeklySummaryKey`: the composite summary key `userId:YYYY-MM-DD`. -/
def getWeeklySummaryKey (userId : String) (weekStart : JDate) : String :=
  userId ++ ":" ++ toISODate weekStart

/-- `[-2, -1, 0, 1, 2].includes(rating)`. -/
def ratingOk (r : Int) : Bool := r = -2 || r = -1 || r = 0 || r = 1 || r = 2

/-- `createEntry` failures. -/
inductive CreateErr where
  | invalidRating
  | duplicateEntry
  deriving DecidableEq

/-- `editEntry` / `deleteEntry` failures. -/
inductive EditErr where
  | entryNotFound
  | invalidRating
  deriving DecidableEq

/-- `createEntry`: validate the rating, refuse a duplicate `(user, date)`
key, then insert a fresh entry under the next id. -/
def createEntry (st : JState) (userId : String) (date : JDate)
    (gratitude didToday proudOf tomorrowPlan : String) (rating : Int) :
    Except CreateErr (JournalEntry × JState) :=
  if !ratingOk rating then .error .invalidRating
  else
    let dateKey := getDateKey userId date
    if (mapGet st.entries dateKey).isSome then .error .duplicateEntry
    else
      let entry : JournalEntry :=
        { id := "entry-" ++ toString st.nextId, userId := userId, date := date,
          gratitude := gratitude, didToday := didToday, proudOf := proudOf,
          tomorrowPlan := tomorrowPlan, rating := rating }
      .ok (entry, { st with entries := mapSet st.entries dateKey entry,
                            nextId := st.nextId + 1 })

/-- `findEntryById`: first entry (in map insertion order) with the id,
together with the map key it sits under. -/
def findEntryById (st : JState) (entryId : String) : Option (String × JournalEntry) :=
  st.entries.find? fun p => p.2.id == entryId

/-- The optional-field update record of `editEntry`. -/
structure EntryUpdates where
  gratitude : Option String := none
  didToday : Option String := none
  proudOf : Option String := none
  tomorrowPlan : Option String := none
  rating : Option Int := none
  deriving DecidableEq

/-- Field-wise in-place update (`if (updates.f !== undefined) entry.f = ...`). -/
def applyUpdates (e : JournalEntry) (u : EntryUpdates) : JournalEntry :=
  { e with
    gratitude := u.gratitude.getD e.gratitude,
    didToday := u.didToday.getD e.didToday,
    proudOf := u.proudOf.getD e.proudOf,
    tomorrowPlan := u.tomorrowPlan.getD e.tomorrowPlan,
    rating := u.rating.getD e.rating }

/-- `editEntry`: find the entry by id, validate a provided rating, then
mutate the found entry's updatable fields in place (its map slot, id, owner
and date are untouched). -/
def editEntry (st : JState) (entryId : String) (updates : EntryUpdates) :
    Except EditErr (JournalEntry × JState) :=
  match findEntryById st entryId with
  | none => .error .entryNotFound
  | some (k, e) =>
    if (match updates.rating with | some r => !ratingOk r | none => false) then
      .error .invalidRating
    else
      let e2 := applyUpdates e updates
      .ok (e2, { st with entries := st.entries.map fun p => if p.1 == k then (k, e2) else p })

/-- `deleteEntry`: find the entry by id and delete its `(user, date)` key. -/
def deleteEntry (st : JState) (entryId : String) : Except EditErr JState :=
  match findEntryById st entryId with
  | none => .error .entryNotFound
  | some (_, e) =>
    .ok { st with entries := st.entries.filter fun p => !(p.1 == getDateKey e.userId e.date) }

/-- Insert an entry after every already-placed entry of date ≤ its own
(the stable ascending insertion step). -/
def insertByDate (e : JournalEntry) : List JournalEntry → List JournalEntry
  | [] => [e]
  | x :: xs => if jleb x.date e.date then x :: insertByDate e xs else e :: x :: xs

/-- `Array.prototype.sort((a, b) => a.date - b.date)`: stable ascending sort
by date. -/
def sortByDate (l : List JournalEntry) : List JournalEntry :=
  l.foldl (fun acc e => insertByDate e acc) []

/-- `getEntriesInRange`: a user's entries with date in the inclusive range,
sorted ascending by date. -/
def getEntriesInRange (st : JState) (userId : String) (startDate endDate : JDate) :
    List JournalEntry :=
  sortByDate ((st.entries.map Prod.snd).filter fun e =>
    e.userId == userId && jleb startDate e.date && jleb e.date endDate)

/-- `getEntriesForUser`: all of a user's entries sorted ascending by date. -/
def getEntriesForUser (st : JState) (userId : String) : List JournalEntry :=
  sortByDate ((st.entries.map Prod.snd).filter fun e => e.userId == userId)

/-! ### Deterministic aggregates -/

/-- `Math.round(p / q)` for integers `p`, `q` with `q > 0`: round half toward
positive infinity, `⌊p/q + 1/2⌋ = ⌊(2p + q) / (2q)⌋` (the division on `ℤ` is
euclidean, i.e. floor division for a positive divisor). -/
def jsRound (p q : Int) : Int := (2 * p + q) / (2 * q)

/-- `Math.round((ratings.reduce(..) / ratings.length) * 100)` (and `0` for an
empty rating list): the average rating scaled by 100, i.e. the rounding of
the exact rational `(sum / length) * 100`.  The rational value differs from
the IEEE double by far less than the distance to the nearest half-integer
(denominators are ≤ 7), so the rounding agrees with the source's
floating-point computation. -/
def computeAvgScaled (ratings : List Int) : Int :=
  if ratings.length > 0 then jsRound (ratings.sum * 100) ratings.length
  else 0

/-- The missing-days loop: the 7 window dates, in order, whose ISO rendering
is not among the entries' ISO dates. -/
def computeMissingDays (weekEntries : List JournalEntry) (weekStart : JDate) : List String :=
  let entryDates := weekEntries.map fun e => toISODate e.date
  (List.range 7).filterMap fun i =>
    let isoDate := toISODate (addDays weekStart i)
    if entryDates.contains isoDate then none else some isoDate

/-! ### Prompt construction -/

/-- JS number-to-string for a value `scaled / 100` with `scaled` an integer
(the only numbers interpolated into the prompt): minimal decimal digits. -/
def formatAvgScaled (scaled : Int) : String :=
  let n := scaled.natAbs
  let sign := if scaled < 0 then "-" else ""
  let ip := n / 100
  let fp := n % 100
  if fp = 0 then sign ++ toString ip
  else if fp % 10 = 0 then sign ++ toString ip ++ "." ++ toString (fp / 10)
  else if fp < 10 then sign ++ toString ip ++ ".0" ++ toString fp
  else sign ++ toString ip ++ "." ++ toString fp

/-- The per-entry block of the prompt. -/
def entryPromptBlock (e : JournalEntry) : String :=
  "Date: " ++ toISODate e.date ++
  "\nGratitude: " ++ e.gratitude ++
  "\nDid Today: " ++ e.didToday ++
  "\nProud Of: " ++ e.proudOf ++
  "\nTomorrow Plan: " ++ e.tomorrowPlan ++
  "\nRating: " ++ toString e.rating

/-- The variant-specific instruction appended to the base prompt. -/
def variantAddendum (variant : PromptVariant) : String :=
  match variant with
  | .base => ""
  | .compressed =>
    "\n6. Be extremely concise - aim for 80 words in summary and 40 words in focus"
  | .strict =>
    "\n6. No external links or dates outside the target week. If information is insufficient, say so"
  | .actionable =>
    "\n6. Include at least one imperative verb from [schedule, plan, block, review, write, read, practice, prepare, email, call, draft, set] and at least one timebox/frequency (e.g., \"15 minutes\", \"daily\", \"morning\"). Be concrete and low-lift"

/-- `createWeeklySummaryPrompt`: the full request text (statistics, entries,
instruction set, variant addendum, and the output-shape directive). -/
def createWeeklySummaryPrompt (entries : List JournalEntry) (entryCount : Nat)
    (avgScaled : Int) (missingDays : List String) (weekStart : JDate)
    (variant : PromptVariant) : String :=
  let entriesText := String.intercalate "\n\n---\n\n" (entries.map entryPromptBlock)
  let weekEnd := addDays weekStart 6
  let weekWindow := toISODate weekStart ++ " to " ++ toISODate weekEnd
  let missingText :=
    if missingDays.length > 0 then String.intercalate ", " missingDays else "None"
  "You are a helpful AI assistant that synthesizes weekly journal entries into concise insights.\n\nWEEK STATISTICS (computed by code, for your context):\n- Entry Count: " ++
  toString entryCount ++
  "\n- Average Rating: " ++ formatAvgScaled avgScaled ++
  "\n- Missing Days: " ++ missingText ++
  "\n- Week Window: " ++ weekWindow ++
  "\n\nJOURNAL ENTRIES FOR THIS WEEK:\n" ++ entriesText ++
  "\n\nCRITICAL REQUIREMENTS:\n1. Use ONLY the provided journal entries - do not invent facts or add information not present\n2. Create a concise summary (≤120 words) that captures the week\x27s key themes, patterns, and emotional arc\n3. Create a focused suggestion (≤60 words) with concrete, actionable recommendations for next week\n4. Adhere strictly to the word limits\n5. Base insights only on what\x27s explicitly stated in the entries" ++
  variantAddendum variant ++
  "\n\nReturn your response as a JSON object with this exact structure:\n\x7b\n  \"summary\": \"your concise weekly summary here (≤120 words)\",\n  \"focus\": \"your concrete focus suggestions here (≤60 words)\"\n\x7d\n\nReturn ONLY the JSON object, no additional text."

/-! ### The synthesis orchestrator -/

/-- `summarizeWeek` failures. -/
inductive SynthErr where
  /-- no entries in the window (thrown before the LLM call) -/
  | noEntries
  /-- the awaited LLM call itself threw -/
  | transport
  /-- `parseLLMResponse` threw -/
  | parse (e : PErr)
  /-- the validator chain threw -/
  | validation (e : VErr)
  deriving DecidableEq

/-- The post-call processing of `summarizeWeek`:
`parseLLMResponse` followed by `validateLLMOutput`, with the failures mapped
into the synthesis error taxonomy. -/
def processLLMResponse (responseText : String) (weekStart : JDate) :
    Except SynthErr LLMResult :=
  match parseLLMResponse responseText with
  | .error e => .error (.parse e)
  | .ok llmResult =>
    match validateLLMOutput llmResult weekStart with
    | .error e => .error (.validation e)
    | .ok _ => .ok llmResult

/-- `summarizeWeek`: compute the aggregates, call the LLM once, parse and
validate its output, and on success upsert the `WeeklySummary` under
`(user, weekStart)`.  Returns the result, the post-call state, and the
number of LLM invocations made. -/
def summarizeWeek (llm : String → Option String) (st : JState) (userId : String)
    (weekStart : JDate) (promptVariant : PromptVariant) (now : Nat) :
    Except SynthErr WeeklySummary × JState × Nat :=
  let weekEnd := addDays weekStart 6
  let weekEntries := getEntriesInRange st userId weekStart weekEnd
  if weekEntries.length = 0 then (.error .noEntries, st, 0)
  else
    let entryCount := weekEntries.length
    -- `e.rating !== undefined` is always true (`rating` is a required field)
    let ratings := (weekEntries.filter fun _ => true).map fun e => e.rating
    let avgScaled := computeAvgScaled ratings
    let missingDays := computeMissingDays weekEntries weekStart
    let sourceEntryIds := weekEntries.map fun e => e.id
    let prompt :=
      createWeeklySummaryPrompt weekEntries entryCount avgScaled missingDays weekStart promptVariant
    match llm prompt with
    | none => (.error .transport, st, 1)
    | some responseText =>
      match processLLMResponse responseText weekStart with
      | .error e => (.error e, st, 1)
      | .ok llmResult =>
        let summaryKey := getWeeklySummaryKey userId weekStart
        let weeklySummary : WeeklySummary :=
          { userId := userId, weekStart := weekStart, weekEnd := weekEnd,
            entryCount := entryCount, avgRating := (avgScaled : ℚ) / 100,
            missingDays := missingDays, summary := llmResult.summary,
            focus := llmResult.focus, sourceEntryIds := sourceEntryIds,
            generatedAt := now }
        (.ok weeklySummary,
         { st with weeklySummaries := mapSet st.weeklySummaries summaryKey weeklySummary },
         1)

/-- `getWeeklySummary`: look up the stored summary for `(user, weekStart)`. -/
def getWeeklySummary (st : JState) (userId : String) (weekStart : JDate) :
    Option WeeklySummary :=
  mapGet st.weeklySummaries (getWeeklySummaryKey userId weekStart)

/-! ### Shared definitions for claim statements -/

/-- Specification-side rounding to 2 decimal places (round half up). -/
def specRound2 (x : ℚ) : ℚ := (⌊x * 100 + 1 / 2⌋ : ℚ) / 100

/-- Specification-side arithmetic mean of a list of integers. -/
def listMean (l : List Int) : ℚ := (l.sum : ℚ) / (l.length : ℚ)

/-- Specification-side missing days: the window dates carrying no entry date,
in window order, rendered as ISO strings. -/
def specMissingDays (weekEntries : List JournalEntry) (weekStart : JDate) : List String :=
  (((List.range 7).map fun i => addDays weekStart i).filter fun d =>
    weekEntries.all fun e => !(e.date == d)).map toISODate

/-- At most one entry per `(user, date)` pair in the entry map. -/
def AtMostOnePerUserDate (l : List (String × JournalEntry)) : Prop :=
  l.Pairwise fun p q => ¬(p.2.userId = q.2.userId ∧ p.2.date = q.2.date)

/-- A whitespace-separated string of `n` copies of `w`. -/
def mkWords (n : Nat) (w : String) : String :=
  String.intercalate " " (List.replicate n w)

/-- Fixture: a Tuesday entry (rating 2) of the sparse test week. -/
def entryMon : JournalEntry :=
  { id := "entry-1", userId := "user-1", date := ⟨2025, 10, 7⟩,
    gratitude := "Grateful for my health", didToday := "Light workout",
    proudOf := "Took time for self-care", tomorrowPlan := "Back to routine",
    rating := 2 }

/-- Fixture: a Thursday entry (rating 1) of the sparse test week. -/
def entryThu : JournalEntry :=
  { id := "entry-2", userId := "user-1", date := ⟨2025, 10, 9⟩,
    gratitude := "Thankful for supportive friends", didToday := "Worked on project",
    proudOf := "Made progress on a difficult problem", tomorrowPlan := "Keep momentum",
    rating := 1 }

/-- Fixture: a state holding the two sparse-week entries. -/
def stTwo : JState :=
  { entries := [(getDateKey "user-1" ⟨2025, 10, 7⟩, entryMon),
                (getDateKey "user-1" ⟨2025, 10, 9⟩, entryThu)],
    weeklySummaries := [], nextId := 3 }

/-- Fixture: the empty state. -/
def stEmpty : JState := { entries := [], weeklySummaries := [], nextId := 1 }

/-- Fixture: the test week's Monday. -/
def week0 : JDate := ⟨2025, 10, 6⟩

/-- Fixture: a fully valid LLM response. -/
def respGood1 : String :=
  "\x7b\"summary\": \"A steady week.\", \"focus\": \"Schedule a 15 minute review daily.\"\x7d"

/-- Fixture: a second, different fully valid LLM response. -/
def respGood2 : String :=
  "\x7b\"summary\": \"Progress continued.\", \"focus\": \"Plan 30 minutes of reading each evening.\"\x7d"

/-- Fixture: an oracle answering with the first valid response. -/
def llmGood1 : String → Option String := fun _ => some respGood1

/-- Fixture: an oracle answering with the second valid response. -/
def llmGood2 : String → Option String := fun _ => some respGood2

/-- Fixture: an oracle answering with unparseable text. -/
def llmJunk : String → Option String := fun _ => some "no braces at all"

/-- Fixture: the summary stored by the first successful synthesis. -/
def wsum1 : WeeklySummary :=
  { userId := "user-1", weekStart := week0, weekEnd := ⟨2025, 10, 12⟩,
    entryCount := 2, avgRating := ((150 : Int) : ℚ) / 100,
    missingDays := ["2025-10-06", "2025-10-08", "2025-10-10", "2025-10-11", "2025-10-12"],
    summary := "A steady week.", focus := "Schedule a 15 minute review daily.",
    sourceEntryIds := ["entry-1", "entry-2"], generatedAt := 1 }

/-- Fixture: the summary stored by the second successful synthesis. -/
def wsum2 : WeeklySummary :=
  { userId := "user-1", weekStart := week0, weekEnd := ⟨2025, 10, 12⟩,
    entryCount := 2, avgRating := ((150 : Int) : ℚ) / 100,
    missingDays := ["2025-10-06", "2025-10-08", "2025-10-10", "2025-10-11", "2025-10-12"],
    summary := "Progress continued.", focus := "Plan 30 minutes of reading each evening.",
    sourceEntryIds := ["entry-1", "entry-2"], generatedAt := 2 }

/-- Fixture: the state after the first successful synthesis. -/
def stAfter1 : JState :=
  { entries := stTwo.entries,
    weeklySummaries := [("user-1:2025-10-06", wsum1)], nextId := 3 }

/-- Fixture: the state after the second successful synthesis. -/
def stAfter2 : JState :=
  { entries := stTwo.entries,
    weeklySummaries := [("user-1:2025-10-06", wsum2)], nextId := 3 }

/-- Fixture: a response carrying an extra JSON key beside summary/focus. -/
def respExtra : String :=
  "\x7b\"summary\": \"Steady progress.\", \"focus\": \"Schedule a 15 minute review daily.\", \"note\": 1\x7d"

/-- Fixture: a response whose summary value is the empty string. -/
def respEmptySummary : String :=
  "\x7b\"summary\": \"\", \"focus\": \"ok\"\x7d"

/-! ### Lemmas: digits and ISO rendering -/

theorem digitChar_inj (a b : Nat) (h : digitChar a = digitChar b) : a % 10 = b % 10 := by
  have ha : a % 10 < 10 := Nat.mod_lt _ (by omega)
  have hb : b % 10 < 10 := Nat.mod_lt _ (by omega)
  unfold digitChar at h
  generalize hA : a % 10 = x at h ha ⊢
  generalize hB : b % 10 = y at h hb ⊢
  interval_cases x <;> interval_cases y <;> revert h <;> decide

theorem toISODate_inj (a b : JDate) (hay : a.y ≤ 9999) (ham : a.m ≤ 99) (had : a.d ≤ 99)
    (hby : b.y ≤ 9999) (hbm : b.m ≤ 99) (hbd : b.d ≤ 99)
    (h : toISODate a = toISODate b) : a = b := by
  unfold toISODate at h
  simp only [String.ext_iff, List.cons.injEq, and_true, true_and] at h
  have h1 := digitChar_inj _ _ h.1
  have h2 := digitChar_inj _ _ h.2.1
  have h3 := digitChar_inj _ _ h.2.2.1
  have h4 := digitChar_inj _ _ h.2.2.2.1
  have h5 := digitChar_inj _ _ h.2.2.2.2.1
  have h6 := digitChar_inj _ _ h.2.2.2.2.2.1
  have h7 := digitChar_inj _ _ h.2.2.2.2.2.2.1
  have h8 := digitChar_inj _ _ h.2.2.2.2.2.2.2
  obtain ⟨ya, ma, da⟩ := a
  obtain ⟨yb, mb, db⟩ := b
  simp only at h1 h2 h3 h4 h5 h6 h7 h8 hay ham had hby hbm hbd
  simp only [JDate.mk.injEq]
  omega

theorem daysInMonth_pos (y m : Nat) : 1 ≤ daysInMonth y m := by
  unfold daysInMonth; split_ifs <;> omega

theorem daysInMonth_le (y m : Nat) : daysInMonth y m ≤ 31 := by
  unfold daysInMonth; split_ifs <;> omega

theorem nextDay_validMD {dt : JDate} (h : dt.ValidMD) : (nextDay dt).ValidMD := by
  obtain ⟨y, m, d⟩ := dt
  obtain ⟨h1, h2, h3, h4⟩ := h
  have hp1 := daysInMonth_pos y (m + 1)
  have hp2 := daysInMonth_pos (y + 1) 1
  simp only at h1 h2 h3 h4
  unfold nextDay JDate.ValidMD
  split_ifs with c1 c2 <;> simp_all <;> omega

theorem nextDay_y {dt : JDate} : dt.y ≤ (nextDay dt).y ∧ (nextDay dt).y ≤ dt.y + 1 := by
  obtain ⟨y, m, d⟩ := dt
  unfold nextDay
  split_ifs <;> simp

theorem addDays_validMD {dt : JDate} (h : dt.ValidMD) (n : Nat) : (addDays dt n).ValidMD := by
  induction n with
  | zero => exact h
  | succ k ih =>
    have he : addDays dt (k + 1) = nextDay (addDays dt k) := Function.iterate_succ_apply' nextDay k dt
    rw [he]
    exact nextDay_validMD ih

theorem addDays_y_le {dt : JDate} (n : Nat) : dt.y ≤ (addDays dt n).y := by
  induction n with
  | zero => exact le_rfl
  | succ k ih =>
    have he : addDays dt (k + 1) = nextDay (addDays dt k) := Function.iterate_succ_apply' nextDay k dt
    rw [he]
    exact le_trans ih (nextDay_y).1

theorem addDays_y_mono {dt : JDate} {i j : Nat} (h : i ≤ j) :
    (addDays dt i).y ≤ (addDays dt j).y := by
  obtain ⟨k, rfl⟩ := Nat.exists_eq_add_of_le h
  have he : addDays dt (i + k) = addDays (addDays dt i) k := by
    unfold addDays
    rw [Nat.add_comm i k, Function.iterate_add_apply]
  rw [he]
  exact addDays_y_le k

theorem toKey_lt_nextDay {dt : JDate} (h : dt.ValidMD) : dt.toKey < (nextDay dt).toKey := by
  obtain ⟨y, m, d⟩ := dt
  obtain ⟨h1, h2, h3, h4⟩ := h
  simp only at h1 h2 h3 h4
  have h31 := daysInMonth_le y m
  unfold nextDay JDate.toKey
  split_ifs with c1 c2 <;> simp_all <;> omega

theorem addDays_toKey_strictMono {dt : JDate} (h : dt.ValidMD) {i j : Nat} (hij : i < j) :
    (addDays dt i).toKey < (addDays dt j).toKey := by
  obtain ⟨k, rfl⟩ : ∃ k, j = i + (k + 1) := ⟨j - i - 1, by omega⟩
  clear hij
  induction k with
  | zero =>
    have he : addDays dt (i + 1) = nextDay (addDays dt i) := Function.iterate_succ_apply' nextDay i dt
    rw [he]
    exact toKey_lt_nextDay (addDays_validMD h i)
  | succ k2 ih =>
    have he : addDays dt (i + (k2 + 1 + 1)) = nextDay (addDays dt (i + (k2 + 1))) := by
      have h2 : i + (k2 + 1 + 1) = (i + (k2 + 1)) + 1 := by omega
      rw [h2]
      exact Function.iterate_succ_apply' nextDay _ dt
    rw [he]
    exact lt_trans ih (toKey_lt_nextDay (addDays_validMD h _))

/-! ### Lemmas: keyed maps (JS `Map`) -/

section MapLemmas
variable {β : Type}

theorem find?_key_isSome_iff (m : List (String × β)) (k : String) :
    (m.find? fun p => p.1 == k).isSome ↔ k ∈ m.map Prod.fst := by
  rw [List.find?_isSome]
  constructor
  · rintro ⟨x, hx, hb⟩
    exact List.mem_map.mpr ⟨x, hx, eq_of_beq hb⟩
  · intro hk
    obtain ⟨x, hx, hfst⟩ := List.mem_map.mp hk
    exact ⟨x, hx, by simp [hfst]⟩

theorem mapSet_keys_of_present (m : List (String × β)) (k : String) (v : β)
    (h : (m.find? fun p => p.1 == k).isSome) :
    (mapSet m k v).map Prod.fst = m.map Prod.fst := by
  unfold mapSet
  rw [if_pos h, List.map_map]
  refine List.map_congr_left fun p _ => ?_
  by_cases hp : (p.1 == k) = true
  · show (if (p.1 == k) = true then (k, v) else p).1 = p.1
    rw [if_pos hp]
    exact (eq_of_beq hp).symm
  · show (if (p.1 == k) = true then (k, v) else p).1 = p.1
    rw [if_neg hp]

theorem mapSet_keys_of_absent (m : List (String × β)) (k : String) (v : β)
    (h : ¬(m.find? fun p => p.1 == k).isSome) :
    (mapSet m k v).map Prod.fst = m.map Prod.fst ++ [k] := by
  unfold mapSet
  rw [if_neg h]
  simp

theorem mapGet_mapSet_self (m : List (String × β)) (k : String) (v : β) :
    mapGet (mapSet m k v) k = some v := by
  unfold mapGet mapSet
  split_ifs with h
  · induction m with
    | nil => simp at h
    | cons p m ih =>
      by_cases hp : (p.1 == k) = true
      · simp only [List.map_cons, if_pos hp]
        rw [List.find?_cons_of_pos _ (by simp)]
        simp
      · simp only [List.map_cons, if_neg hp]
        rw [List.find?_cons_of_neg _ (by simpa using hp)]
        apply ih
        rwa [List.find?_cons_of_neg _ (by simpa using hp)] at h
  · have hnone : m.find? (fun p => p.1 == k) = none := Option.not_isSome_iff_eq_none.mp h
    have hall := List.find?_eq_none.mp hnone
    induction m with
    | nil => simp [List.find?]
    | cons p m ih =>
      have hp : ¬((p.1 == k) = true) := hall p (List.mem_cons_self p m)
      rw [List.cons_append]
      rw [List.find?_cons_of_neg _ (by simpa using hp)]
      exact ih (fun hc => h (by rw [List.find?_cons_of_neg _ (by simpa using hp)]; exact hc))
        (by rwa [List.find?_cons_of_neg _ (by simpa using hp)] at hnone)
        fun q hq => hall q (List.mem_cons_of_mem p hq)

theorem mapSet_keys_nodup (m : List (String × β)) (k : String) (v : β)
    (h : (m.map Prod.fst).Nodup) : ((mapSet m k v).map Prod.fst).Nodup := by
  by_cases hp : (m.find? fun p => p.1 == k).isSome
  · rw [mapSet_keys_of_present _ _ _ hp]; exact h
  · rw [mapSet_keys_of_absent _ _ _ hp]
    have hk : k ∉ m.map Prod.fst := fun hc => hp ((find?_key_isSome_iff m k).mpr hc)
    simp [List.nodup_append, h, hk]

theorem count_keys_mapSet_self (m : List (String × β)) (k : String) (v : β)
    (h : (m.map Prod.fst).Nodup) : ((mapSet m k v).map Prod.fst).count k = 1 := by
  by_cases hp : (m.find? fun p => p.1 == k).isSome
  · rw [mapSet_keys_of_present _ _ _ hp]
    have hmem : k ∈ m.map Prod.fst := (find?_key_isSome_iff m k).mp hp
    have hle := (List.nodup_iff_count_le_one.mp h) k
    have hge := List.count_pos_iff.mpr hmem
    omega
  · rw [mapSet_keys_of_absent _ _ _ hp]
    have hk : k ∉ m.map Prod.fst := fun hc => hp ((find?_key_isSome_iff m k).mpr hc)
    rw [List.count_append]
    simp [List.count_eq_zero.mpr hk]

end MapLemmas

theorem insertByDate_perm (e : JournalEntry) (l : List JournalEntry) :
    (insertByDate e l).Perm (e :: l) := by
  induction l with
  | nil => simp [insertByDate]
  | cons x xs ih =>
    unfold insertByDate
    split_ifs
    · exact (ih.cons x).trans (List.Perm.swap e x xs)
    · exact List.Perm.refl _

theorem foldl_insertByDate_perm (l : List JournalEntry) :
    ∀ acc, (l.foldl (fun acc e => insertByDate e acc) acc).Perm (acc ++ l) := by
  induction l with
  | nil => intro acc; simp
  | cons x xs ih =>
    intro acc
    have h1 := ih (insertByDate x acc)
    have h2 : (insertByDate x acc ++ xs).Perm ((x :: acc) ++ xs) :=
      (insertByDate_perm x acc).append_right xs
    have h3 : ((x :: acc) ++ xs).Perm (acc ++ x :: xs) := by
      simpa using List.perm_middle.symm
    simp only [List.foldl_cons]
    exact (h1.trans h2).trans h3

theorem sortByDate_perm (l : List JournalEntry) : (sortByDate l).Perm l :=
  (foldl_insertByDate_perm l []).trans (by simp)
theorem processLLMResponse_error_kind (responseText : String) (weekStart : JDate) (e : SynthErr)
    (h : processLLMResponse responseText weekStart = .error e) :
    (∃ pe, e = .parse pe) ∨ (∃ ve, e = .validation ve) := by
  unfold processLLMResponse at h
  split at h
  · injection h with h2
    exact .inl ⟨_, h2.symm⟩
  · split at h
    · injection h with h2
      exact .inr ⟨_, h2.symm⟩
    · cases h

theorem summarizeWeek_error_inv (llm : String → Option String) (st : JState) (userId : String)
    (weekStart : JDate) (variant : PromptVariant) (now : Nat) (e : SynthErr)
    (st' : JState) (c : Nat)
    (h : summarizeWeek llm st userId weekStart variant now = (.error e, st', c)) :
    st' = st ∧ c = (if e = SynthErr.noEntries then 0 else 1) := by
  simp only [summarizeWeek] at h
  split at h
  · simp only [Prod.mk.injEq] at h
    obtain ⟨he, hst, hc⟩ := h
    subst hst hc
    injection he with he2
    subst he2
    simp
  · split at h
    · simp only [Prod.mk.injEq] at h
      obtain ⟨he, hst, hc⟩ := h
      subst hst hc
      injection he with he2
      subst he2
      simp
    · split at h
      · rename_i err heq
        simp only [Prod.mk.injEq] at h
        obtain ⟨he, hst, hc⟩ := h
        subst hst hc
        injection he with he2
        subst he2
        rcases processLLMResponse_error_kind _ _ _ heq with ⟨pe, rfl⟩ | ⟨ve, rfl⟩ <;> simp
      · simp only [Prod.mk.injEq] at h
        obtain ⟨hw, _, _⟩ := h
        cases hw

theorem summarizeWeek_ok_inv (llm : String → Option String) (st : JState) (userId : String)
    (weekStart : JDate) (variant : PromptVariant) (now : Nat) (w : WeeklySummary)
    (st' : JState) (c : Nat)
    (h : summarizeWeek llm st userId weekStart variant now = (.ok w, st', c)) :
    st' = { st with
            weeklySummaries :=
              mapSet st.weeklySummaries (getWeeklySummaryKey userId weekStart) w } ∧
    c = 1 := by
  simp only [summarizeWeek] at h
  split at h
  · simp only [Prod.mk.injEq] at h
    exact absurd h.1 (by simp)
  · split at h
    · simp only [Prod.mk.injEq] at h
      exact absurd h.1 (by simp)
    · split at h
      · simp only [Prod.mk.injEq] at h
        exact absurd h.1 (by simp)
      · simp only [Prod.mk.injEq] at h
        obtain ⟨hw, hst, hc⟩ := h
        subst hst hc
        injection hw with hw2
        subst hw2
        exact ⟨rfl, rfl⟩

/-! ### Claims -/

/-- C1: every `summarizeWeek` run that fails after the external call (at
parsing or at validator V1, V2, or V3) makes exactly the one LLM call and
leaves the summary store unmodified: the stored map is unchanged, and the
lookup for `(user, weekStart)` returns exactly what it returned before. -/
theorem claim_C1 (llm : String → Option String) (st : JState) (userId : String)
    (weekStart : JDate) (variant : PromptVariant) (now : Nat) (e : SynthErr)
    (st' : JState) (c : Nat)
    (h : summarizeWeek llm st userId weekStart variant now = (.error e, st', c))
    (hpost : (∃ pe, e = SynthErr.parse pe) ∨ (∃ ve, e = SynthErr.validation ve)) :
    c = 1 ∧ st'.weeklySummaries = st.weeklySummaries ∧
    getWeeklySummary st' userId weekStart = getWeeklySummary st userId weekStart ∧
    st' = st := by
  obtain ⟨hst, hc⟩ := summarizeWeek_error_inv _ _ _ _ _ _ _ _ _ h
  subst hst
  have hne : e ≠ SynthErr.noEntries := by
    rcases hpost with ⟨pe, rfl⟩ | ⟨ve, rfl⟩ <;> simp
  rw [if_neg hne] at hc
  exact ⟨hc, rfl, rfl, rfl⟩

/-- C1 witness: a concrete parse failure after the call leaves the concrete
store untouched. -/
theorem claim_C1_witness :
    1 = 1 ∧ stTwo.weeklySummaries = stTwo.weeklySummaries ∧
    getWeeklySummary stTwo "user-1" week0 = getWeeklySummary stTwo "user-1" week0 ∧
    stTwo = stTwo :=
  claim_C1 llmJunk stTwo "user-1" week0 .base 1 (.parse .noJson) stTwo 1 rfl
    (.inl ⟨_, rfl⟩)

/-- C4: when no entry of the user falls in `[weekStart, weekStart + 6]`,
`summarizeWeek` fails with `NoEntriesError`, the LLM oracle is invoked zero
times, and the state is returned unmodified. -/
theorem claim_C4 (llm : String → Option String) (st : JState) (userId : String)
    (weekStart : JDate) (variant : PromptVariant) (now : Nat)
    (h : ∀ p ∈ st.entries, p.2.userId = userId →
      ¬(jleb weekStart p.2.date = true ∧ jleb p.2.date (addDays weekStart 6) = true)) :
    summarizeWeek llm st userId weekStart variant now = (.error .noEntries, st, 0) := by
  have hempty : getEntriesInRange st userId weekStart (addDays weekStart 6) = [] := by
    unfold getEntriesInRange
    have hnil : (st.entries.map Prod.snd).filter (fun e =>
        e.userId == userId && jleb weekStart e.date && jleb e.date (addDays weekStart 6)) = [] := by
      rw [List.filter_eq_nil_iff]
      intro a ha
      obtain ⟨p, hp, rfl⟩ := List.mem_map.mp ha
      intro hcond
      simp only [Bool.and_eq_true, beq_iff_eq] at hcond
      exact h p hp hcond.1.1 ⟨hcond.1.2, hcond.2⟩
    rw [hnil]
    rfl
  simp [summarizeWeek, hempty]

/-- C4 witness: the empty store has no entries in the window; the run fails
with `NoEntriesError` and zero LLM calls. -/
theorem claim_C4_witness :
    summarizeWeek llmGood1 stEmpty "user-1" week0 .base 1 = (.error .noEntries, stEmpty, 0) :=
  claim_C4 llmGood1 stEmpty "user-1" week0 .base 1 (by simp [stEmpty])

/-- C5: after two successful `summarizeWeek` runs for the same
`(user, weekStart)` on a store with well-formed keys, exactly one summary is
stored under that key, it is the second run's summary, and
`getWeeklySummary` returns it. -/
theorem claim_C5 (llm1 llm2 : String → Option String) (st st1 st2 : JState) (userId : String)
    (weekStart : JDate) (var1 var2 : PromptVariant) (n1 n2 : Nat)
    (w1 w2 : WeeklySummary) (c1 c2 : Nat)
    (hnd : (st.weeklySummaries.map Prod.fst).Nodup)
    (h1 : summarizeWeek llm1 st userId weekStart var1 n1 = (.ok w1, st1, c1))
    (h2 : summarizeWeek llm2 st1 userId weekStart var2 n2 = (.ok w2, st2, c2)) :
    (st2.weeklySummaries.map Prod.fst).count (getWeeklySummaryKey userId weekStart) = 1 ∧
    mapGet st2.weeklySummaries (getWeeklySummaryKey userId weekStart) = some w2 ∧
    getWeeklySummary st2 userId weekStart = some w2 := by
  obtain ⟨hst1, -⟩ := summarizeWeek_ok_inv _ _ _ _ _ _ _ _ _ h1
  obtain ⟨hst2, -⟩ := summarizeWeek_ok_inv _ _ _ _ _ _ _ _ _ h2
  subst hst1 hst2
  refine ⟨?_, ?_, ?_⟩
  · exact count_keys_mapSet_self _ _ _ (mapSet_keys_nodup _ _ _ hnd)
  · exact mapGet_mapSet_self _ _ _
  · unfold getWeeklySummary
    exact mapGet_mapSet_self _ _ _

/-- C5 witness: two concrete successful runs leave exactly the second
concrete summary under the key. -/
theorem claim_C5_witness :
    (stAfter2.weeklySummaries.map Prod.fst).count (getWeeklySummaryKey "user-1" week0) = 1 ∧
    mapGet stAfter2.weeklySummaries (getWeeklySummaryKey "user-1" week0) = some wsum2 ∧
    getWeeklySummary stAfter2 "user-1" week0 = some wsum2 :=
  claim_C5 llmGood1 llmGood2 stTwo stAfter1 stAfter2 "user-1" week0 .base .base 1 2
    wsum1 wsum2 1 1 (by simp [stTwo]) rfl rfl
theorem mk_eq_empty_iff (l : List Char) : String.mk l = "" ↔ l = [] := by
  simp [String.ext_iff]

theorem trimOrEmpty_iff (s : String) :
    (s.isEmpty || decide ((jsTrim s).length = 0)) = true ↔ jsTrim s = "" := by
  rw [Bool.or_eq_true, decide_eq_true_eq]
  constructor
  · rintro (h | h)
    · rw [(String.isEmpty_iff s).mp h]; rfl
    · unfold jsTrim at h ⊢
      rw [show (String.mk (((s.data.dropWhile jsSpace).reverse.dropWhile jsSpace).reverse)).length
          = (((s.data.dropWhile jsSpace).reverse.dropWhile jsSpace).reverse).length from rfl,
        List.length_eq_zero] at h
      rw [mk_eq_empty_iff]
      exact h
  · intro h
    right
    rw [h]
    rfl

set_option maxRecDepth 20000 in
/-- C7: V1 accepts exactly when both texts are non-empty after trimming and
the whitespace-token counts respect the limits (summary ≤ 120, focus ≤ 60);
a 121-word summary is rejected and a 120-word one is accepted. -/
theorem claim_C7 :
    (∀ r : LLMResult,
      validateV1_ShapeAndLimits r = .ok () ↔
        (jsTrim r.summary ≠ "" ∧ jsTrim r.focus ≠ "" ∧
         splitWsCount (jsTrim r.summary) ≤ 120 ∧ splitWsCount (jsTrim r.focus) ≤ 60)) ∧
    validateV1_ShapeAndLimits ⟨mkWords 121 "word", "Review 10 minutes daily"⟩ =
      .error (.v1SummaryTooLong 121) ∧
    validateV1_ShapeAndLimits ⟨mkWords 120 "word", "Review 10 minutes daily"⟩ = .ok () := by
  refine ⟨fun r => ?_, by decide, by decide⟩
  simp only [validateV1_ShapeAndLimits]
  rw [if_neg (by decide)]
  split_ifs with h1 h2 h3 h4
  · constructor
    · intro hc; simp at hc
    · rintro ⟨ha, -, -, -⟩; exact absurd (trimOrEmpty_iff _ |>.mp h1) ha
  · constructor
    · intro hc; simp at hc
    · rintro ⟨-, hb, -, -⟩; exact absurd (trimOrEmpty_iff _ |>.mp h2) hb
  · constructor
    · intro hc; simp at hc
    · rintro ⟨-, -, hc', -⟩; omega
  · constructor
    · intro hc; simp at hc
    · rintro ⟨-, -, -, hd⟩; omega
  · constructor
    · intro _
      refine ⟨fun hc => h1 ((trimOrEmpty_iff _).mpr hc),
              fun hc => h2 ((trimOrEmpty_iff _).mpr hc), by omega, by omega⟩
    · intro _; rfl

/-- C7 witness: the acceptance condition instantiated at a concrete result. -/
theorem claim_C7_witness :
    validateV1_ShapeAndLimits ⟨"Fine week.", "Read 10 minutes daily."⟩ = .ok () ↔
      (jsTrim "Fine week." ≠ "" ∧ jsTrim "Read 10 minutes daily." ≠ "" ∧
       splitWsCount (jsTrim "Fine week.") ≤ 120 ∧
       splitWsCount (jsTrim "Read 10 minutes daily.") ≤ 60) :=
  claim_C7.1 ⟨"Fine week.", "Read 10 minutes daily."⟩

theorem isDigitChar_isWordChar {c : Char} (h : isDigitChar c = true) : isWordChar c = true := by
  unfold isDigitChar at h
  simp [isWordChar, h]

theorem digitAtB_lt_length {cs : List Char} {i : Nat} (h : digitAtB cs i = true) :
    i < cs.length := by
  unfold digitAtB at h
  cases hc : cs[i]? with
  | none => rw [hc] at h; cases h
  | some c => exact (List.getElem?_eq_some.mp hc).1

theorem dateMatchAt_parts {cs : List Char} {i : Nat} (h : dateMatchAt cs i = true) :
    boundaryBefore cs i = true ∧
    digitAtB cs i = true ∧ digitAtB cs (i + 1) = true ∧ digitAtB cs (i + 2) = true ∧
    digitAtB cs (i + 3) = true ∧ cs[i + 4]? = some '-' ∧
    digitAtB cs (i + 5) = true ∧ digitAtB cs (i + 6) = true ∧ cs[i + 7]? = some '-' ∧
    digitAtB cs (i + 8) = true ∧ digitAtB cs (i + 9) = true ∧
    boundaryAfter cs (i + 10) = true := by
  unfold dateMatchAt at h
  simp only [Bool.and_eq_true, decide_eq_true_eq] at h
  tauto

theorem dateMatchAt_no_overlap {cs : List Char} {j i : Nat}
    (hj : dateMatchAt cs j = true) (hi : dateMatchAt cs i = true)
    (hlt : j < i) : j + 10 ≤ i := by
  by_contra hcon
  push_neg at hcon
  obtain ⟨-, d0, d1, d2, d3, h4, d5, d6, h7, d8, d9, hafter⟩ := dateMatchAt_parts hj
  obtain ⟨hb, e0, e1, e2, e3, g4, -, -, -, -, -, -⟩ := dateMatchAt_parts hi
  -- i - 1 lies inside the match at j; a digit there kills the left boundary,
  -- so i - 1 must be one of the two dashes, i.e. i = j + 5 or i = j + 8.
  have hword : ∀ k, digitAtB cs k = true → i - 1 = k → False := by
    intro k hk hik
    unfold boundaryBefore at hb
    unfold digitAtB at hk
    cases hc : cs[k]? with
    | none => rw [hc] at hk; cases hk
    | some c =>
      rw [hc] at hk
      rw [Bool.or_eq_true] at hb
      rcases hb with hb | hb
      · simp at hb; omega
      · rw [← hik] at hc
        rw [hc] at hb
        simp [isDigitChar_isWordChar hk] at hb
  have hi5 : i = j + 5 ∨ i = j + 8 := by
    by_contra hc2
    push_neg at hc2
    rcases show i - 1 = j ∨ i - 1 = j + 1 ∨ i - 1 = j + 2 ∨ i - 1 = j + 3 ∨
        i - 1 = j + 4 ∨ i - 1 = j + 5 ∨ i - 1 = j + 6 ∨ i - 1 = j + 7 ∨
        i - 1 = j + 8 ∨ i - 1 = j + 9 from by omega with
      h | h | h | h | h | h | h | h | h | h
    · exact hword _ d0 h
    · exact hword _ d1 h
    · exact hword _ d2 h
    · exact hword _ d3 h
    · omega
    · exact hword _ d5 h
    · exact hword _ d6 h
    · omega
    · exact hword _ d8 h
    · exact hword _ d9 h
  rcases hi5 with rfl | rfl
  · -- digits at i + 2 = j + 7, but cs[j + 7] is a dash
    unfold digitAtB at e2
    rw [show j + 5 + 2 = j + 7 from by omega, h7] at e2
    simp [isDigitChar] at e2
  · -- digits at i + 2 = j + 10, but there is a word boundary after j + 9
    unfold digitAtB at e2
    unfold boundaryAfter at hafter
    rw [show j + 8 + 2 = j + 10 from by omega] at e2
    cases hc : cs[j + 10]? with
    | none => rw [hc] at e2; cases e2
    | some c =>
      rw [hc] at e2 hafter
      simp [isDigitChar_isWordChar e2] at hafter

theorem dateMatchAt_mem_scan (cs : List Char) (i : Nat) (hm : dateMatchAt cs i = true) :
    ∀ fuel j, j ≤ i → cs.length + 1 - j ≤ fuel →
      String.mk ((cs.drop i).take 10) ∈ findDateTokensFrom fuel cs j := by
  have hilen : i < cs.length := digitAtB_lt_length (dateMatchAt_parts hm).2.1
  intro fuel
  induction fuel with
  | zero => intro j hji hfuel; omega
  | succ f ih =>
    intro j hji hfuel
    unfold findDateTokensFrom
    split_ifs with hlen hdj
    · omega
    · rcases Nat.eq_or_lt_of_le hji with rfl | hlt
      · exact List.mem_cons_self _ _
      · have hsep := dateMatchAt_no_overlap hdj hm hlt
        exact List.mem_cons_of_mem _ (ih (j + 10) (by omega) (by omega))
    · have hji2 : j ≠ i := fun hc => hdj (hc ▸ hm)
      exact ih (j + 1) (by omega) (by omega)

theorem dateMatchAt_mem_findDateTokens (cs : List Char) (i : Nat)
    (hm : dateMatchAt cs i = true) :
    String.mk ((cs.drop i).take 10) ∈ findDateTokens cs :=
  dateMatchAt_mem_scan cs i hm (cs.length + 1) 0 (Nat.zero_le i) (by omega)

/-- C8: V2 rejects on any HTTP/HTTPS URL substring and on any date-shaped
token denoting a calendar date outside the window; for the window starting
2025-10-06 it rejects a text containing 2025-10-20 and accepts one containing
the boundary date 2025-10-12. -/
theorem claim_C8 :
    (∀ (r : LLMResult) (weekStart : JDate),
      (containsSub (jsToLower (r.summary ++ " " ++ r.focus)).data "http://".data ||
        containsSub (jsToLower (r.summary ++ " " ++ r.focus)).data "https://".data) = true →
      validateV2_WindowAndLinks r weekStart = .error .v2Url) ∧
    (∀ (r : LLMResult) (weekStart : JDate) (i : Nat) (dt : JDate),
      dateMatchAt (r.summary ++ " " ++ r.focus).data i = true →
      parseISODate (String.mk (((r.summary ++ " " ++ r.focus).data.drop i).take 10)) = some dt →
      (jltb dt weekStart || jltb (addDays weekStart 6) dt) = true →
      ∃ er, validateV2_WindowAndLinks r weekStart = .error er) ∧
    validateV2_WindowAndLinks ⟨"Summary mentions 2025-10-20 here.", "Focus text."⟩ week0 =
      .error (.v2OutOfWindowDate "2025-10-20") ∧
    validateV2_WindowAndLinks ⟨"Summary mentions 2025-10-12 only.", "Focus text."⟩ week0 =
      .ok () := by
  refine ⟨fun r weekStart hurl => ?_, fun r weekStart i dt hmatch hdt hout => ?_,
    by decide, by decide⟩
  · simp only [validateV2_WindowAndLinks]
    rw [if_pos hurl]
  · simp only [validateV2_WindowAndLinks]
    by_cases hurl : (containsSub (jsToLower (r.summary ++ " " ++ r.focus)).data "http://".data ||
        containsSub (jsToLower (r.summary ++ " " ++ r.focus)).data "https://".data) = true
    · rw [if_pos hurl]
      exact ⟨.v2Url, rfl⟩
    · rw [if_neg hurl]
      have hsome : ∃ t, (findDateTokens (r.summary ++ " " ++ r.focus).data).find?
          (fun tok => match parseISODate tok with
            | some dt => jltb dt weekStart || jltb (addDays weekStart 6) dt
            | none => false) = some t := by
        rw [← Option.isSome_iff_exists, List.find?_isSome]
        exact ⟨String.mk (((r.summary ++ " " ++ r.focus).data.drop i).take 10),
          dateMatchAt_mem_findDateTokens _ i hmatch, by rw [hdt]; exact hout⟩
      obtain ⟨t, ht⟩ := hsome
      rw [ht]
      exact ⟨.v2OutOfWindowDate t, rfl⟩

/-- C8 witness: a concrete URL rejection and a concrete out-of-window date
rejection obtained from the general statements. -/
theorem claim_C8_witness :
    validateV2_WindowAndLinks ⟨"see https://example.com now", "fine"⟩ week0 = .error .v2Url ∧
    (∃ er, validateV2_WindowAndLinks ⟨"on 2025-10-20 we met", "fine"⟩ week0 = .error er) :=
  ⟨claim_C8.1 ⟨"see https://example.com now", "fine"⟩ week0 (by decide),
   claim_C8.2.1 ⟨"on 2025-10-20 we met", "fine"⟩ week0 3 ⟨2025, 10, 20⟩
     (by decide) (by decide) (by decide)⟩

/-- C9: V3 accepts exactly when the focus contains a whole-word
imperative-verb match (case-insensitive) and a timebox/frequency token; it
rejects "Try your best to keep learning." and accepts
"Schedule a 15-minute daily review each evening." -/
theorem claim_C9 :
    (∀ r : LLMResult,
      validateV3_Actionability r = .ok () ↔
        ((imperativeVerbs.any fun verb => wholeWordMatch (jsToLower r.focus).data verb.data) = true ∧
         timeboxMatch (jsToLower r.focus).data = true)) ∧
    validateV3_Actionability ⟨"s", "Try your best to keep learning."⟩ = .error .v3NoImperative ∧
    validateV3_Actionability ⟨"s", "Schedule a 15-minute daily review each evening."⟩ =
      .ok () := by
  refine ⟨fun r => ?_, by decide, by decide⟩
  simp only [validateV3_Actionability]
  split_ifs with h1 h2
  · constructor
    · intro hc; simp at hc
    · rintro ⟨ha, -⟩
      rw [Bool.not_eq_true'] at h1
      exact absurd ha (by simp [h1])
  · constructor
    · intro hc; simp at hc
    · rintro ⟨-, hb⟩
      rw [Bool.not_eq_true'] at h2
      exact absurd hb (by simp [h2])
  · constructor
    · intro _
      rw [Bool.not_eq_true'] at h1 h2
      simp only [Bool.not_eq_false] at h1 h2
      exact ⟨h1, h2⟩
    · intro _; rfl

/-- C9 witness: the acceptance condition instantiated at a concrete result. -/
theorem claim_C9_witness :
    validateV3_Actionability ⟨"s", "Plan 20 minutes weekly."⟩ = .ok () ↔
      ((imperativeVerbs.any fun verb =>
          wholeWordMatch (jsToLower "Plan 20 minutes weekly.").data verb.data) = true ∧
       timeboxMatch (jsToLower "Plan 20 minutes weekly.").data = true) :=
  claim_C9.1 ⟨"s", "Plan 20 minutes weekly."⟩
/-- C2: the code, contrary to the spec, does not preserve extra keys for V1:
`parseLLMResponse` returns a fresh two-field record, V1's extra-key check
never fires, and a response carrying an additional key is accepted
end-to-end (parse succeeds, the whole validator chain passes, and a
`summarizeWeek` run driven by that response succeeds). -/
theorem claim_C2_code_accepts_extra_key :
    jsonParse respExtra = some (Json.obj
      [("summary", Json.str "Steady progress."),
       ("focus", Json.str "Schedule a 15 minute review daily."),
       ("note", Json.num "1")]) ∧
    parseLLMResponse respExtra =
      .ok ⟨"Steady progress.", "Schedule a 15 minute review daily."⟩ ∧
    validateV1_ShapeAndLimits ⟨"Steady progress.", "Schedule a 15 minute review daily."⟩ =
      .ok () ∧
    validateLLMOutput ⟨"Steady progress.", "Schedule a 15 minute review daily."⟩ week0 =
      .ok () ∧
    (summarizeWeek (fun _ => some respExtra) stTwo "user-1" week0 .base 1).1.isOk = true :=
  ⟨rfl, rfl, rfl, rfl, rfl⟩

/-- C3 (counterexample): a response whose brace substring is valid JSON with
both keys present and both values strings (the summary being the empty
string) is nevertheless rejected by `parseLLMResponse` — refuting the
claim's "parsing succeeds ... including the empty string". -/
theorem claim_C3_counterexample :
    extractBraces respEmptySummary = some respEmptySummary ∧
    jsonParse respEmptySummary =
      some (Json.obj [("summary", Json.str ""), ("focus", Json.str "ok")]) ∧
    parseLLMResponse respEmptySummary = .error .missingField :=
  ⟨rfl, rfl, rfl⟩

/-- C3 (amended): `parseLLMResponse` succeeds exactly when the first-brace to
last-brace substring exists, parses as JSON, and carries both `summary` and
`focus` as non-empty strings; an empty-string (or otherwise falsy) value is
rejected like a missing key. -/
theorem claim_C3_amended (s : String) (r : LLMResult) :
    parseLLMResponse s = .ok r ↔
      ∃ t j, extractBraces s = some t ∧ jsonParse t = some j ∧
        jGet j "summary" = some (.str r.summary) ∧ jGet j "focus" = some (.str r.focus) ∧
        r.summary ≠ "" ∧ r.focus ≠ "" := by
  unfold parseLLMResponse
  cases hext : extractBraces s with
  | none => simp
  | some t =>
    cases hjson : jsonParse t with
    | none =>
      dsimp only
      rw [hjson]
      constructor
      · intro h; cases h
      · rintro ⟨t1, j1, ht1, hj1, -⟩
        have : t = t1 := by injection ht1
        subst this
        rw [hjson] at hj1
        cases hj1
    | some j =>
      dsimp only
      rw [hjson]
      dsimp only
      constructor
      · intro h
        split_ifs at h with hf hs
        simp only [Bool.or_eq_true, not_or, Bool.not_eq_true, Bool.not_eq_false'] at hf hs
        obtain ⟨htru_s, htru_f⟩ := hf
        obtain ⟨hstr_s, hstr_f⟩ := hs
        cases hsv : jGet j "summary" with
        | none => rw [hsv] at hstr_s; simp [jsIsString] at hstr_s
        | some v1 =>
          cases hfv : jGet j "focus" with
          | none => rw [hfv] at hstr_f; simp [jsIsString] at hstr_f
          | some v2 =>
            rw [hsv] at hstr_s htru_s
            rw [hfv] at hstr_f htru_f
            rw [hsv, hfv] at h
            cases v1 <;> simp [jsIsString] at hstr_s
            cases v2 <;> simp [jsIsString] at hstr_f
            dsimp only at h
            simp only [Except.ok.injEq] at h
            subst h
            simp only [jsTruthy] at htru_s htru_f
            dsimp only
            refine ⟨t, j, rfl, hjson, hsv, hfv, ?_, ?_⟩
            · intro hc
              rw [hc] at htru_s
              exact absurd htru_s (by decide)
            · intro hc
              rw [hc] at htru_f
              exact absurd htru_f (by decide)
      · rintro ⟨t', j', ht', hj', hsv, hfv, hns, hnf⟩
        have htt : t' = t := by injection ht' with hx; exact hx.symm
        subst htt
        rw [hjson] at hj'
        have hjj : j' = j := by injection hj' with hx; exact hx.symm
        subst hjj
        have h1 : r.summary.isEmpty = false := by
          cases hh : r.summary.isEmpty
          · rfl
          · exact absurd ((String.isEmpty_iff _).mp hh) hns
        have h2 : r.focus.isEmpty = false := by
          cases hh : r.focus.isEmpty
          · rfl
          · exact absurd ((String.isEmpty_iff _).mp hh) hnf
        rw [hsv, hfv]
        simp only [jsTruthy, jsIsString, h1, h2, Bool.not_false, Bool.or_self,
          Bool.not_true, Bool.false_or, Bool.or_false]
        simp
theorem jsRound_eq_floor (p q : Int) (hq : 0 < q) :
    jsRound p q = ⌊(p : ℚ) / (q : ℚ) + 1 / 2⌋ := by
  have h2q : ((2 * q.toNat : ℕ) : ℤ) = 2 * q := by
    push_cast
    rw [Int.toNat_of_nonneg hq.le]
  have hx : (p : ℚ) / q + 1 / 2 = ((2 * p + q : ℤ) : ℚ) / ((2 * q.toNat : ℕ) : ℚ) := by
    have hq0 : (q : ℚ) ≠ 0 := by exact_mod_cast hq.ne'
    have hcast : ((2 * q.toNat : ℕ) : ℚ) = 2 * (q : ℚ) := by
      exact_mod_cast congrArg (Int.cast : ℤ → ℚ) h2q
    rw [hcast]
    field_simp
    ring
  rw [jsRound, hx, Rat.floor_intCast_div_natCast, h2q]

theorem computeAvgScaled_eq (ratings : List Int) (hne : ratings ≠ []) :
    (computeAvgScaled ratings : ℚ) / 100 = specRound2 (listMean ratings) := by
  have hlen : 0 < ratings.length := List.length_pos.mpr hne
  unfold computeAvgScaled specRound2 listMean
  rw [if_pos hlen, jsRound_eq_floor _ _ (by exact_mod_cast hlen)]
  have harg : ((ratings.sum * 100 : ℤ) : ℚ) / (((ratings.length : ℕ) : ℤ) : ℚ) + 1 / 2 =
      (ratings.sum : ℚ) / (ratings.length : ℚ) * 100 + 1 / 2 := by
    push_cast
    ring
  rw [harg]

theorem filter_map_map_eq_filterMap {α β γ : Type} (g : α → β) (P : β → Bool) (h : β → γ)
    (l : List α) :
    ((l.map g).filter P).map h = l.filterMap fun a => if P (g a) then some (h (g a)) else none := by
  induction l with
  | nil => rfl
  | cons x xs ih =>
    by_cases hx : P (g x) = true
    · simp [List.filter_cons, hx, ih]
    · simp [List.filter_cons, hx, ih]

theorem toISODate_inj_valid {a b : JDate} (ha : a.ValidMD) (hay : a.y ≤ 9999)
    (hb : b.ValidMD) (hby : b.y ≤ 9999) (h : toISODate a = toISODate b) : a = b := by
  have h1 := daysInMonth_le a.y a.m
  have h2 := daysInMonth_le b.y b.m
  obtain ⟨-, ham, -, had⟩ := ha
  obtain ⟨-, hbm, -, hbd⟩ := hb
  exact toISODate_inj a b hay (by omega) (by omega) hby (by omega) (by omega) h

theorem computeMissingDays_eq_spec (wk : List JournalEntry) (ws : JDate)
    (hwk : ∀ e ∈ wk, e.date.ValidMD ∧ e.date.y ≤ 9999)
    (hws : ws.ValidMD) (hy : (addDays ws 6).y ≤ 9999) :
    computeMissingDays wk ws = specMissingDays wk ws := by
  unfold computeMissingDays specMissingDays
  rw [filter_map_map_eq_filterMap]
  apply List.filterMap_congr
  intro i hi
  have hi6 : i ≤ 6 := by
    simp only [List.mem_range] at hi
    omega
  have hvd : (addDays ws i).ValidMD := addDays_validMD hws i
  have hvy : (addDays ws i).y ≤ 9999 := le_trans (addDays_y_mono hi6) hy
  by_cases hc : ∃ e ∈ wk, e.date = addDays ws i
  · obtain ⟨e, he, hde⟩ := hc
    have hall : (wk.all fun e => !(e.date == addDays ws i)) = false := by
      rw [← Bool.not_eq_true, List.all_eq_true]
      push_neg
      exact ⟨e, he, by simp [hde]⟩
    simp [hall]
    exact ⟨e, he, by rw [hde]⟩
  · push_neg at hc
    have hall : (wk.all fun e => !(e.date == addDays ws i)) = true := by
      rw [List.all_eq_true]
      intro e he
      simp only [Bool.not_eq_true', beq_eq_false_iff_ne, ne_eq]
      exact hc e he
    simp [hall]
    rintro x hx hiso
    exact hc x hx (toISODate_inj_valid (hwk x hx).1 (hwk x hx).2 hvd hvy hiso)
/-- C6: for a non-empty week, the computed aggregates are correct:
`entryCount` is the number of the user's entries in the window, the stored
average is the arithmetic mean of the ratings rounded to two decimal places
(0 for an empty rating list; exactly 3/2 for ratings [2, 1]), and
`missingDays` is exactly the window dates with no entry date, in date
order, as ISO strings. -/
theorem claim_C6 (st : JState) (userId : String) (weekStart : JDate)
    (hentries : ∀ p ∈ st.entries, (p.2.date).ValidMD ∧ p.2.date.y ≤ 9999)
    (hws : weekStart.ValidMD) (hwy : (addDays weekStart 6).y ≤ 9999)
    (wk : List JournalEntry)
    (hwk : wk = getEntriesInRange st userId weekStart (addDays weekStart 6))
    (hne : wk ≠ []) :
    wk.length = ((st.entries.map Prod.snd).filter fun e =>
      e.userId == userId && jleb weekStart e.date && jleb e.date (addDays weekStart 6)).length ∧
    ((computeAvgScaled ((wk.filter fun _ => true).map fun e => e.rating) : ℚ) / 100 =
      specRound2 (listMean (wk.map fun e => e.rating))) ∧
    computeAvgScaled [] = 0 ∧
    ((computeAvgScaled [2, 1] : ℚ) / 100 = 3 / 2) ∧
    computeMissingDays wk weekStart = specMissingDays wk weekStart ∧
    ((((List.range 7).map fun i => addDays weekStart i).filter fun d =>
        wk.all fun e => !(e.date == d)).Pairwise fun a b => jltb a b = true) := by
  have hmemwk : ∀ e ∈ wk, e ∈ (st.entries.map Prod.snd) := by
    intro e he
    rw [hwk] at he
    unfold getEntriesInRange at he
    have := (sortByDate_perm _).mem_iff.mp he
    exact (List.mem_filter.mp this).1
  have hvalid : ∀ e ∈ wk, e.date.ValidMD ∧ e.date.y ≤ 9999 := by
    intro e he
    obtain ⟨p, hp, rfl⟩ := List.mem_map.mp (hmemwk e he)
    exact hentries p hp
  refine ⟨?_, ?_, rfl, ?_, ?_, ?_⟩
  · rw [hwk]
    unfold getEntriesInRange
    exact (sortByDate_perm _).length_eq
  · rw [List.filter_true]
    apply computeAvgScaled_eq
    simp only [ne_eq, List.map_eq_nil_iff]
    exact hne
  · rw [show computeAvgScaled [2, 1] = 150 from by decide]
    norm_num
  · exact computeMissingDays_eq_spec wk weekStart hvalid hws hwy
  · apply List.Pairwise.sublist (List.filter_sublist _)
    rw [List.pairwise_map]
    apply (List.pairwise_lt_range 7).imp
    intro i j hij
    exact decide_eq_true (addDays_toKey_strictMono hws hij)

/-- C6 witness: the aggregate facts instantiated on a concrete two-entry
week. -/
theorem claim_C6_witness :
    (getEntriesInRange stTwo "user-1" week0 (addDays week0 6)).length =
      ((stTwo.entries.map Prod.snd).filter fun e =>
        e.userId == "user-1" && jleb week0 e.date && jleb e.date (addDays week0 6)).length ∧
    ((computeAvgScaled (((getEntriesInRange stTwo "user-1" week0 (addDays week0 6)).filter
        fun _ => true).map fun e => e.rating) : ℚ) / 100 =
      specRound2 (listMean ((getEntriesInRange stTwo "user-1" week0 (addDays week0 6)).map
        fun e => e.rating))) ∧
    computeAvgScaled [] = 0 ∧
    ((computeAvgScaled [2, 1] : ℚ) / 100 = 3 / 2) ∧
    computeMissingDays (getEntriesInRange stTwo "user-1" week0 (addDays week0 6)) week0 =
      specMissingDays (getEntriesInRange stTwo "user-1" week0 (addDays week0 6)) week0 ∧
    ((((List.range 7).map fun i => addDays week0 i).filter fun d =>
        (getEntriesInRange stTwo "user-1" week0 (addDays week0 6)).all
          fun e => !(e.date == d)).Pairwise fun a b => jltb a b = true) :=
  claim_C6 stTwo "user-1" week0 (by decide) (by decide) (by decide)
    (getEntriesInRange stTwo "user-1" week0 (addDays week0 6)) rfl (by decide)
/-- C10: a successful `editEntry` changes only the provided updatable fields
of the found entry: its id, owner and date are unchanged, every omitted
field keeps its value, the summary store, id counter, key list and all
other entries are untouched, and the at-most-one-entry-per-(user, date)
invariant is preserved. -/
theorem claim_C10 (st : JState) (entryId : String) (u : EntryUpdates)
    (k : String) (e : JournalEntry) (res : JournalEntry × JState)
    (hnd : (st.entries.map Prod.fst).Nodup)
    (hfind : findEntryById st entryId = some (k, e))
    (hrun : editEntry st entryId u = .ok res) :
    res.1.id = e.id ∧ res.1.userId = e.userId ∧ res.1.date = e.date ∧
    (u.gratitude = none → res.1.gratitude = e.gratitude) ∧
    (u.didToday = none → res.1.didToday = e.didToday) ∧
    (u.proudOf = none → res.1.proudOf = e.proudOf) ∧
    (u.tomorrowPlan = none → res.1.tomorrowPlan = e.tomorrowPlan) ∧
    (u.rating = none → res.1.rating = e.rating) ∧
    res.2.weeklySummaries = st.weeklySummaries ∧
    res.2.nextId = st.nextId ∧
    res.2.entries.map Prod.fst = st.entries.map Prod.fst ∧
    (∀ p ∈ st.entries, p.1 ≠ k → p ∈ res.2.entries) ∧
    (AtMostOnePerUserDate st.entries → AtMostOnePerUserDate res.2.entries) := by
  unfold editEntry at hrun
  rw [hfind] at hrun
  split_ifs at hrun with hr
  injection hrun with hres
  subst hres
  have hpe : (k, e) ∈ st.entries := List.mem_of_find?_eq_some hfind
  have hpres : ∀ p ∈ st.entries,
      ((if p.1 == k then (k, applyUpdates e u) else p) : String × JournalEntry).1 = p.1 ∧
      ((if p.1 == k then (k, applyUpdates e u) else p) : String × JournalEntry).2.userId = p.2.userId ∧
      ((if p.1 == k then (k, applyUpdates e u) else p) : String × JournalEntry).2.date = p.2.date := by
    intro p hp
    by_cases hpk : (p.1 == k) = true
    · have hpk2 : p.1 = k := eq_of_beq hpk
      have hpeq : p = (k, e) := by
        apply List.inj_on_of_nodup_map hnd hp hpe
        simp [hpk2]
      rw [if_pos hpk, hpeq]
      exact ⟨rfl, rfl, rfl⟩
    · rw [if_neg hpk]
      exact ⟨rfl, rfl, rfl⟩
  refine ⟨rfl, rfl, rfl,
    fun h => by simp [applyUpdates, h],
    fun h => by simp [applyUpdates, h],
    fun h => by simp [applyUpdates, h],
    fun h => by simp [applyUpdates, h],
    fun h => by simp [applyUpdates, h],
    rfl, rfl, ?_, ?_, ?_⟩
  · rw [List.map_map]
    apply List.map_congr_left
    intro p hp
    exact (hpres p hp).1
  · intro p hp hpk
    have hne : (p.1 == k) = false := beq_eq_false_iff_ne.mpr hpk
    have : (if p.1 == k then (k, applyUpdates e u) else p) = p := by rw [hne]; rfl
    exact this ▸ List.mem_map_of_mem _ hp
  · intro hA
    unfold AtMostOnePerUserDate at hA ⊢
    rw [List.pairwise_map]
    refine hA.imp_of_mem ?_
    intro a b ha hb hR hS
    obtain ⟨-, hau, had⟩ := hpres a ha
    obtain ⟨-, hbu, hbd⟩ := hpres b hb
    rw [hau, hbu, had, hbd] at hS
    exact hR hS

/-- C10 witness: an empty update on a concrete entry leaves everything in
place. -/
theorem claim_C10_witness :
    entryMon.id = entryMon.id ∧ entryMon.userId = entryMon.userId ∧
    entryMon.date = entryMon.date ∧
    ((EntryUpdates.mk none none none none none).gratitude = none →
      entryMon.gratitude = entryMon.gratitude) ∧
    ((EntryUpdates.mk none none none none none).didToday = none →
      entryMon.didToday = entryMon.didToday) ∧
    ((EntryUpdates.mk none none none none none).proudOf = none →
      entryMon.proudOf = entryMon.proudOf) ∧
    ((EntryUpdates.mk none none none none none).tomorrowPlan = none →
      entryMon.tomorrowPlan = entryMon.tomorrowPlan) ∧
    ((EntryUpdates.mk none none none none none).rating = none →
      entryMon.rating = entryMon.rating) ∧
    stTwo.weeklySummaries = stTwo.weeklySummaries ∧
    stTwo.nextId = stTwo.nextId ∧
    stTwo.entries.map Prod.fst = stTwo.entries.map Prod.fst ∧
    (∀ p ∈ stTwo.entries, p.1 ≠ getDateKey "user-1" ⟨2025, 10, 7⟩ → p ∈ stTwo.entries) ∧
    (AtMostOnePerUserDate stTwo.entries → AtMostOnePerUserDate stTwo.entries) :=
  claim_C10 stTwo "entry-1" (EntryUpdates.mk none none none none none)
    (getDateKey "user-1" ⟨2025, 10, 7⟩) entryMon (entryMon, stTwo)
    (by decide) rfl rfl
